import Mathlib

/-!
Verification of the retrieval core of the `pdfassistant` repository.

The definitions below are a shallow embedding of the Python sources:

* `src/utils/vector_store.py` — the FAISS-backed `VectorStore` (index,
  document map, id-lookup sequence, persistence);
* `src/utils/pdf_parser.py`   — `split_into_chunks`, the text chunker;
* `src/app/routes.py`         — the `/upload` route (content-hash dedup);
* `src/utils/rag.py`          — `RAGSystem.query` / `_generate_response` /
  `_format_response`.

Modelling conventions: Python strings are `List Char` where character-level
computation matters and `String` where they are opaque identifiers; numeric
embedding vectors are `List Int` (faiss casts everything to a single
precision, float32, before insertion and querying; exact integers model that
consistent precision without floating-point rounding); Python `dict`s keyed
by strings are association lists with Python's insert-or-replace semantics;
code that can raise returns `Except String`; the pickle file on disk is
modelled by `Disk`.
-/

set_option autoImplicit false

namespace PdfAssistant

/-- An embedding vector (faiss stores rows of float32; modelled exactly). -/
abbrev Vec := List Int

/-! ## Python dict operations (string-keyed), as used by `VectorStore.documents` -/

/-- `m[k]` lookup / `k in m` test for a Python dict modelled as an
association list (at most one entry per key in every dict the code builds). -/
def dictFind {β : Type} (m : List (String × β)) (k : String) : Option β :=
  match m with
  | [] => none
  | p :: rest => if p.1 = k then some p.2 else dictFind rest k

/-- `k in m` (`VectorStore.has_document` is exactly this test). -/
def dictContains {β : Type} (m : List (String × β)) (k : String) : Bool :=
  (dictFind m k).isSome

/-- `m[k] = v`: Python dict assignment replaces the value in place when the
key exists and appends a new entry otherwise. -/
def dictInsert {β : Type} (m : List (String × β)) (k : String) (v : β) :
    List (String × β) :=
  if (dictFind m k).isSome then
    m.map (fun p => if p.1 = k then (k, v) else p)
  else m ++ [(k, v)]

/-- `del m[k]`: removes the entry for `k` (dict keys are unique, so removing
every entry with key `k` is the same operation). -/
def dictErase {β : Type} (m : List (String × β)) (k : String) :
    List (String × β) :=
  m.filter (fun p => decide (p.1 ≠ k))

/-! ## The VectorStore state (`src/utils/vector_store.py`) -/

/-- One value of `VectorStore.documents`, the per-document record written by
`add_document` (lines 242-248): the chunk list, the position of the
document's first vector in the id-lookup sequence, filename, upload time,
and the joined full text. -/
structure DocInfo where
  chunks : List String
  chunk_start_idx : Nat
  filename : String
  upload_time : Option Int
  text : String
deriving DecidableEq

/-- The in-memory `VectorStore`: dimension, the FAISS `IndexFlatL2` contents
(`index.ntotal = index.length` here), the document map and the id-lookup
sequence `doc_ids`. -/
structure VS where
  dimension : Nat
  index : List Vec
  documents : List (String × DocInfo)
  doc_ids : List String
deriving DecidableEq

/-- A store as `__init__` builds it before `load()` runs: empty index
(`faiss.IndexFlatL2(dimension)`), empty documents, empty `doc_ids`. -/
def VS.emptyStore (dimension : Nat) : VS :=
  { dimension := dimension, index := [], documents := [], doc_ids := [] }

/-- The pickled payload `save` writes: the dict
`\x7b'documents': ..., 'doc_ids': ..., 'index': serialize_index(...)\x7d`.
`faiss.serialize_index`/`deserialize_index` and `pickle` round-trip exactly,
so the serialized index is modelled by the index contents themselves. -/
structure StoreData where
  documents : List (String × DocInfo)
  doc_ids : List String
  index : List Vec
deriving DecidableEq

/-- Contents of the file at `store_path`: either bytes that do not
deserialize (a truncated or otherwise corrupt pickle) or a valid pickle of a
`StoreData`. -/
inductive FileState where
  | corrupt : FileState
  | valid : StoreData → FileState
deriving DecidableEq

/-- The disk at `store_path`: `none` when no file exists. -/
abbrev Disk := Option FileState

def VS.storeData (vs : VS) : StoreData :=
  { documents := vs.documents, doc_ids := vs.doc_ids, index := vs.index }

/-- `save` (lines 120-131): pickles the full store into `store_path`.
This is the resulting disk state after a completed save. -/
def VS.save (vs : VS) : Disk :=
  some (.valid vs.storeData)

/-- The successive on-disk states while `save` runs: `open(store_path,'wb')`
truncates the file in place (leaving bytes that are not a valid pickle),
then `pickle.dump` writes the new payload.  There is no temporary file and
no rename in the source. -/
def VS.saveSteps (vs : VS) : List Disk :=
  [some .corrupt, vs.save]

/-- A disk write is an all-or-nothing commit when every intermediate state
equals the old contents or the new contents. -/
def allOrNothing (old new_ : Disk) (steps : List Disk) : Prop :=
  ∀ s ∈ steps, s = old ∨ s = new_

/-- `pickle.load` + `deserialize_index` on an existing file: fails on bytes
that are not a valid pickle. -/
def loadAttempt : FileState → Except String StoreData
  | .corrupt => .error "Failed to load vector store"
  | .valid d => .ok d

/-- `load` (lines 133-149): missing file leaves the store as initialized;
a failed deserialization is caught, logged, and resets `documents` and
`doc_ids` to empty; a successful one installs the pickled fields. -/
def VS.load (vs : VS) (disk : Disk) : VS :=
  match disk with
  | none => vs
  | some fs =>
    match loadAttempt fs with
    | .error _ => { vs with documents := [], doc_ids := [] }
    | .ok d =>
      { vs with documents := d.documents, doc_ids := d.doc_ids, index := d.index }

/-- `__init__` (lines 16-23): build the empty store, then `load()` whatever
is at `store_path`. -/
def VS.init (dimension : Nat) (disk : Disk) : VS :=
  (VS.emptyStore dimension).load disk

/-- The optional `metadata` dict passed to `add_document`. -/
structure Metadata where
  filename : Option String
  upload_time : Option Int
deriving DecidableEq

/-- `' '.join(text_chunks)` over a Python list of strings. -/
def joinSpaceStr (chunks : List String) : String :=
  String.intercalate " " chunks

/-- `add_document` (lines 228-262): record the document (with
`chunk_start_idx = len(self.doc_ids)` taken before the appends), append the
embeddings to the FAISS index, append one `doc_ids` entry per chunk, save,
and return the id. -/
def VS.add_document (vs : VS) (disk : Disk) (document_id : String)
    (text_chunks : List String) (embeddings : List Vec) (metadata : Metadata) :
    VS × Disk × String :=
  let info : DocInfo :=
    { chunks := text_chunks
      chunk_start_idx := vs.doc_ids.length
      filename := metadata.filename.getD document_id
      upload_time := metadata.upload_time
      text := joinSpaceStr text_chunks }
  let vs1 : VS :=
    { vs with
      documents := dictInsert vs.documents document_id info
      index := vs.index ++ embeddings
      doc_ids := vs.doc_ids ++ List.replicate text_chunks.length document_id }
  (vs1, vs1.save, document_id)

/-- `remove_document` (lines 151-175): absent id returns `False` untouched;
otherwise delete the record (the index keeps the embeddings), save, return
`True`. -/
def VS.remove_document (vs : VS) (disk : Disk) (doc_id : String) :
    VS × Disk × Bool :=
  if dictContains vs.documents doc_id = false then (vs, disk, false)
  else
    let vs1 : VS := { vs with documents := dictErase vs.documents doc_id }
    (vs1, vs1.save, true)

/-- `has_document` (lines 177-187). -/
def VS.has_document (vs : VS) (doc_id : String) : Bool :=
  dictContains vs.documents doc_id

/-! ## Search (`VectorStore.search`, lines 59-105) -/

/-- Squared L2 distance used by `faiss.IndexFlatL2`. -/
def sqDist (u v : Vec) : Int :=
  ((u.zip v).map (fun p => (p.1 - p.2) * (p.1 - p.2))).sum

/-- Candidate order of the flat index: ascending distance, ties broken by
insertion order. -/
def distLe (p q : Nat × Int) : Bool :=
  decide (p.2 < q.2 ∨ (p.2 = q.2 ∧ p.1 ≤ q.1))

def insertByDist (p : Nat × Int) : List (Nat × Int) → List (Nat × Int)
  | [] => [p]
  | q :: rest => if distLe p q then p :: q :: rest else q :: insertByDist p rest

def sortByDist : List (Nat × Int) → List (Nat × Int)
  | [] => []
  | p :: rest => insertByDist p (sortByDist rest)

/-- `index.search(q, n)` on an `IndexFlatL2`: the `n` nearest stored rows as
`(row index, squared distance)` pairs in ascending distance order (`n` never
exceeds `ntotal` at the call site, so no `-1` padding occurs). -/
def faissSearch (index : List Vec) (q : Vec) (n : Nat) : List (Nat × Int) :=
  (sortByDist (index.enum.map (fun p => (p.1, sqDist q p.2)))).take n

/-- One element of the list `search` returns. -/
structure SearchResult where
  doc_id : String
  chunk : String
  score : Int
deriving DecidableEq

/-- The loop body of `search` (lines 81-101) for one raw candidate
`(row index, distance)`: skip rows outside `doc_ids` (`idx < 0 or idx >=
len(self.doc_ids)`), skip documents absent from `documents`, compute the
relative chunk index and skip it when out of range, else produce the result
dict. -/
def VS.searchHit (vs : VS) (p : Nat × Int) : Option SearchResult :=
  match vs.doc_ids.get? p.1 with
  | none => none
  | some doc_id =>
    match dictFind vs.documents doc_id with
    | none => none
    | some info =>
      if (p.1 : Int) - (info.chunk_start_idx : Int) < 0 ∨
          (info.chunks.length : Int) ≤ (p.1 : Int) - (info.chunk_start_idx : Int) then
        none
      else
        some { doc_id := doc_id
               chunk := info.chunks.getD
                 ((p.1 : Int) - (info.chunk_start_idx : Int)).toNat ""
               score := p.2 }

/-- `search` (lines 59-105): empty index returns `[]`; otherwise fetch
`min(top_k, ntotal)` raw candidates, keep the ones `searchHit` accepts, then
apply the optional score threshold (`r.score <= threshold`). -/
def VS.search (vs : VS) (query_embedding : Vec) (top_k : Nat)
    (threshold : Option Int) : List SearchResult :=
  if vs.index.length = 0 then []
  else
    match threshold with
    | none =>
      (faissSearch vs.index query_embedding (min top_k vs.index.length)).filterMap
        vs.searchHit
    | some t =>
      ((faissSearch vs.index query_embedding (min top_k vs.index.length)).filterMap
        vs.searchHit).filter (fun r => decide (r.score ≤ t))

/-- Number of index rows that currently resolve to a live document with an
in-range chunk index (the rows `search` would not discard). -/
def VS.liveEntryCount (vs : VS) : Nat :=
  (List.range vs.index.length).countP (fun idx =>
    match vs.doc_ids.get? idx with
    | none => false
    | some doc_id =>
      match dictFind vs.documents doc_id with
      | none => false
      | some info =>
        decide (0 ≤ (idx : Int) - (info.chunk_start_idx : Int) ∧
          (idx : Int) - (info.chunk_start_idx : Int) < (info.chunks.length : Int)))

/-- Metadata value with neither filename nor upload time, i.e. Python
`metadata=\x7b\x7d`. -/
def mdNone : Metadata := { filename := none, upload_time := none }

/-- C4: stores reachable from a freshly initialized empty store by
`add_document` calls that satisfy the precondition
`len(chunks) == len(embeddings)` and use a fresh id, and by arbitrary
`remove_document` calls. -/
inductive Reachable : VS → Prop where
  | empty (dim : Nat) : Reachable (VS.emptyStore dim)
  | add (vs : VS) (disk : Disk) (id : String) (chunks : List String)
      (embeddings : List Vec) (md : Metadata)
      (hlen : chunks.length = embeddings.length)
      (hfresh : vs.has_document id = false)
      (hvs : Reachable vs) :
      Reachable (vs.add_document disk id chunks embeddings md).1
  | remove (vs : VS) (disk : Disk) (id : String) (hvs : Reachable vs) :
      Reachable (vs.remove_document disk id).1

/-! ## Concrete stores used by witnesses and counterexamples -/

/-- Store holding the spec scenario document: chunks `["cats","dogs"]` with
embeddings `[1,0]`, `[0,1]`. -/
def vsW1 : VS :=
  ((VS.emptyStore 2).add_document none "A" ["cats", "dogs"]
    [[1, 0], [0, 1]] mdNone).1

def rW1 : SearchResult := { doc_id := "A", chunk := "cats", score := 0 }

def vsW4 : VS :=
  (((VS.emptyStore 2).add_document none "d1" ["a", "b"]
    [[1, 0], [0, 1]] mdNone).1.remove_document none "zzz").1

/-- A concrete nonempty previous disk content for the C7 counterexample. -/
def dC7 : StoreData :=
  ((VS.emptyStore 1).add_document none "old" ["o"] [[7]] mdNone).1.storeData

def vsC7 : VS :=
  ((VS.emptyStore 1).add_document none "doc" ["c"] [[3]] mdNone).1

/-- Store built by adding documents "A" and "B" and then removing "A":
its index still holds A's vector (nearest to the query `[0]`) while only
B's single entry is live. -/
def vsC9 : VS :=
  ((((VS.emptyStore 1).add_document none "A" ["dead"] [[0]] mdNone).1.add_document
      none "B" ["live"] [[5]] mdNone).1.remove_document none "A").1

def vsW10 : VS :=
  ((VS.emptyStore 2).add_document none "keep" ["x"] [[1, 1]] mdNone).1

/-! ## The chunker (`split_into_chunks`, src/utils/pdf_parser.py lines 86-152)

Text is modelled as `List Char`.  `split_into_chunks` receives strings at
its call sites, so `ensure_text_is_string` is the identity here. -/

abbrev PyText := List Char

/-- Python whitespace for `str.strip()` and the regex class `\s`:
space, tab, newline, carriage return, vertical tab, form feed. -/
def isPySpace (c : Char) : Bool :=
  c == ' ' || c == '\t' || c == '\n' || c == '\r' ||
    c == Char.ofNat 11 || c == Char.ofNat 12

def pyStripLeft : PyText → PyText
  | [] => []
  | c :: cs => if isPySpace c then pyStripLeft cs else c :: cs

/-- Python `str.strip()`. -/
def pyStrip (t : PyText) : PyText :=
  ((pyStripLeft ((pyStripLeft t).reverse)).reverse)

/-- `text.split('\n\n')`: leftmost non-overlapping splitting on the
two-character separator. -/
def splitParasAux : PyText → PyText → List PyText
  | [], acc => [acc.reverse]
  | '\n' :: '\n' :: rest, acc => acc.reverse :: splitParasAux rest []
  | c :: rest, acc => splitParasAux rest (c :: acc)

def splitParas (text : PyText) : List PyText :=
  splitParasAux text []

/-- Last character already written to the current sentence (the accumulator
is kept reversed) is terminal punctuation `[.!?]`. -/
def headIsTerm : PyText → Bool
  | [] => false
  | c :: _ => c == '.' || c == '!' || c == '?'

/-- `re.split(r'(?<=[.!?])\s+', paragraph)`: a maximal whitespace run
immediately preceded by terminal punctuation separates sentences (the run
is consumed).  `skipping` is true while inside such a run; the accumulator
holds the current sentence reversed. -/
def sentSplitAux : PyText → PyText → Bool → List PyText
  | [], acc, skipping => if skipping then [[]] else [acc.reverse]
  | c :: rest, acc, skipping =>
    if skipping then
      if isPySpace c then sentSplitAux rest acc true
      else sentSplitAux rest [c] false
    else
      if isPySpace c && headIsTerm acc then
        acc.reverse :: sentSplitAux rest [] true
      else sentSplitAux rest (c :: acc) false

def splitSentences (p : PyText) : List PyText :=
  sentSplitAux p [] false

/-- `sep.join(pieces)` over Python lists of strings. -/
def joinWith (sep : PyText) : List PyText → PyText
  | [] => []
  | [x] => x
  | x :: y :: rest => x ++ sep ++ joinWith sep (y :: rest)

/-- The `'\n\n'` separator. -/
def nlnl : PyText := ['\n', '\n']

def sumLen (l : List PyText) : Nat :=
  (l.map List.length).sum

/-- `sentence_chunk[-2:] if len(sentence_chunk) >= 2 else sentence_chunk`. -/
def lastTwo (sc : List PyText) : List PyText :=
  if 2 ≤ sc.length then sc.drop (sc.length - 2) else sc

/-- The sentence loop (lines 114-123) over an oversized paragraph's
sentences.  State: emitted chunks, the open sentence chunk, and
`sentence_chunk_length`.  When adding a sentence would overflow a nonempty
sentence chunk, the chunk is emitted and its last one or two sentences are
carried forward as overlap seed; the sentence is then appended in either
case. -/
def sentLoop (chunk_size : Nat) :
    List PyText → List PyText → List PyText → Nat →
    List PyText × List PyText × Nat
  | [], chunks, sc, scl => (chunks, sc, scl)
  | s :: rest, chunks, sc, scl =>
    if chunk_size < scl + s.length ∧ sc ≠ [] then
      sentLoop chunk_size rest (chunks ++ [joinWith [' '] sc])
        (lastTwo sc ++ [s])
        (sumLen (lastTwo sc) + (lastTwo sc).length - 1 + s.length + 1)
    else
      sentLoop chunk_size rest chunks (sc ++ [s]) (scl + s.length + 1)

/-- `if current_chunk: chunks.append('\n\n'.join(current_chunk))`. -/
def closeParaChunk (chunks : List PyText) (cur : List PyText) : List PyText :=
  if cur ≠ [] then chunks ++ [joinWith nlnl cur] else chunks

/-- Lines 109-126: run the sentence loop over the oversized paragraph's
sentences starting from an empty sentence chunk, then flush the trailing
sentence chunk. -/
def oversizedParaChunks (chunk_size : Nat) (chunks : List PyText)
    (p : PyText) : List PyText :=
  match sentLoop chunk_size (splitSentences p) chunks [] 0 with
  | (chunks2, sc, _) =>
    if sc ≠ [] then chunks2 ++ [joinWith [' '] sc] else chunks2

/-- `[current_chunk[-1]]` when the closed chunk had more than one paragraph
(lines 133-139), else a fresh empty chunk. -/
def overlapSeed (cur : List PyText) : List PyText :=
  if cur ≠ [] ∧ 1 < cur.length then [cur.getLastD []] else []

/-- The matching `current_length` reset. -/
def overlapLen (cur : List PyText) : Nat :=
  if cur ≠ [] ∧ 1 < cur.length then (cur.getLastD []).length else 0

/-- The paragraph loop (lines 100-146).  State: emitted chunks, the open
chunk (a list of paragraphs), and `current_length`. -/
def paraLoop (chunk_size : Nat) :
    List PyText → List PyText → List PyText → Nat →
    List PyText × List PyText × Nat
  | [], chunks, cur, curLen => (chunks, cur, curLen)
  | p :: rest, chunks, cur, curLen =>
    if chunk_size < curLen + p.length then
      if chunk_size < p.length then
        paraLoop chunk_size rest
          (oversizedParaChunks chunk_size (closeParaChunk chunks cur) p) [] 0
      else
        paraLoop chunk_size rest (closeParaChunk chunks cur)
          (overlapSeed cur ++ [p]) (overlapLen cur + p.length)
    else
      paraLoop chunk_size rest chunks (cur ++ [p]) (curLen + p.length + 2)

/-- `split_into_chunks(text, chunk_size, overlap)` (lines 86-152): empty
input gives `[]`; otherwise split into stripped nonempty paragraphs, run
the paragraph loop, and flush the last open chunk.  The `overlap` parameter
is accepted but never read by the source body (overlap is realized by the
hard-coded carry of the last paragraph / last two sentences). -/
def split_into_chunks (text : PyText) (chunk_size : Nat) (overlap : Nat) :
    List PyText :=
  if text = [] then []
  else
    match paraLoop chunk_size
        (((splitParas text).map pyStrip).filter (fun p => decide (p ≠ [])))
        [] [] 0 with
    | (chunks, cur, _) => closeParaChunk chunks cur

/-! ## The upload route (`src/app/routes.py`, `upload_file`, lines 39-95)

The HTTP plumbing (missing `file` field, empty filename, `secure_filename`)
is outside the model; the route is modelled from the point where a filename
and the raw bytes are in hand. -/

abbrev Bytes := List Nat

/-- The characters after the last `'.'` (`filename.rsplit('.', 1)[1]`). -/
def afterLastDot (filename : PyText) : PyText :=
  ((filename.reverse.takeWhile (fun c => !(c == '.'))).reverse)

/-- `allowed_file` (lines 26-28): the filename contains a dot and its
lowercased extension is `pdf`. -/
def allowed_file (filename : PyText) : Bool :=
  filename.contains '.' &&
    (afterLastDot filename).map Char.toLower == ['p', 'd', 'f']

/-- The dict `generate_embeddings` (src/utils/embeddings.py, lines 12-56)
returns: `\x7b'chunks': ..., 'embeddings': ...\x7d`. -/
structure EmbResult where
  chunks : List String
  embeddings : List Vec

/-- What the route passes to `add_document` as `embeddings`: either a
proper list of numeric vectors or the dict `generate_embeddings` actually
returns. -/
inductive PyEmbeddings where
  | vecs : List Vec → PyEmbeddings
  | dict : EmbResult → PyEmbeddings

/-- `np.array(embeddings).astype('float32')`: succeeds on a list of numeric
vectors; raises `ValueError` on a dict (a 0-dimensional object array cannot
be cast to float32). -/
def npAsFloat32 : PyEmbeddings → Except String (List Vec)
  | .vecs vs => .ok vs
  | .dict _ => .error "float() argument must be a string or a real number, not \x27dict\x27"

/-- A Python `str` passed where a list of chunk strings is expected behaves
as its sequence of one-character strings (same `len`, iteration and
`' '.join` behaviour). -/
def strAsChunkSeq (t : String) : List String :=
  t.toList.map Char.toString

/-- `add_document` as the route actually invokes it, with a dynamically
typed `embeddings` argument: `self.documents[document_id] = ...` runs
first, then `np.array(embeddings).astype('float32')` — which raises on the
dict-shaped argument, so the index append, the `doc_ids` append and the
`save` are never reached and the exception propagates while the document
record stays in the in-memory map. -/
def VS.add_document_dyn (vs : VS) (disk : Disk) (document_id : String)
    (text_chunks : List String) (embeddings : PyEmbeddings)
    (metadata : Metadata) : (VS × Disk) × Except String String :=
  let info : DocInfo :=
    { chunks := text_chunks
      chunk_start_idx := vs.doc_ids.length
      filename := metadata.filename.getD document_id
      upload_time := metadata.upload_time
      text := joinSpaceStr text_chunks }
  let vs1 : VS := { vs with documents := dictInsert vs.documents document_id info }
  match npAsFloat32 embeddings with
  | .error e => ((vs1, disk), .error e)
  | .ok embs =>
    let vs2 : VS :=
      { vs1 with
        index := vs1.index ++ embs
        doc_ids := vs1.doc_ids ++ List.replicate text_chunks.length document_id }
    ((vs2, vs2.save), .ok document_id)

/-- Which of the processing steps ran during one `upload_file` call. -/
structure Effects where
  extracted : Bool
  embedded : Bool
  inserted : Bool
deriving DecidableEq

/-- The JSON responses `upload_file` can produce. -/
inductive UploadResp where
  | badRequest : String → UploadResp
  | alreadyProcessed : String → String → UploadResp
  | success : String → String → Nat → UploadResp
  | serverError : UploadResp
deriving DecidableEq

/-- The route's collaborators: `hashlib.md5(...).hexdigest()`,
`extract_text_from_pdf` applied to the raw bytes (its result is a single
Python string — possibly an `ERROR:`/`WARNING:` sentinel, never a list),
`generate_embeddings` (returns its chunks/embeddings dict), and
`time.time()`. -/
structure UploadDeps where
  md5 : Bytes → String
  extract_text : Bytes → String
  generate_embeddings : String → EmbResult
  now : Int

/-- `upload_file` (lines 39-95): extension check, content hash, dedup via
`has_document`, text extraction, embedding, `add_document`, with the
route-level `except` turning any exception into a 500 response. -/
def upload_file (vs : VS) (disk : Disk) (deps : UploadDeps)
    (filename : String) (file_content : Bytes) :
    (VS × Disk) × UploadResp × Effects :=
  if allowed_file filename.toList = false then
    ((vs, disk),
      .badRequest "Invalid file type. Only PDF files are allowed.",
      { extracted := false, embedded := false, inserted := false })
  else
    if vs.has_document (deps.md5 file_content) then
      ((vs, disk),
        .alreadyProcessed (deps.md5 file_content) filename,
        { extracted := false, embedded := false, inserted := false })
    else
      if deps.extract_text file_content = "" then
        ((vs, disk),
          .badRequest "Could not extract text from PDF",
          { extracted := true, embedded := false, inserted := false })
      else
        match VS.add_document_dyn vs disk (deps.md5 file_content)
            (strAsChunkSeq (deps.extract_text file_content))
            (.dict (deps.generate_embeddings (deps.extract_text file_content)))
            { filename := some filename, upload_time := some deps.now } with
        | ((vs2, disk2), .ok doc_id) =>
          ((vs2, disk2),
            .success doc_id filename
              (strAsChunkSeq (deps.extract_text file_content)).length,
            { extracted := true, embedded := true, inserted := true })
        | ((vs2, disk2), .error _) =>
          ((vs2, disk2), .serverError,
            { extracted := true, embedded := true, inserted := false })

/-- Concrete collaborators for the C5 witness: tiny `%PDF` bytes, the
sentinel string `extract_text_from_pdf` really produces when handed raw
bytes instead of a path. -/
def depsW5 : UploadDeps :=
  { md5 := fun _ => "9e107d9d372bb6826bd81d3542a419d6"
    extract_text := fun _ => "ERROR: An unexpected error occurred while processing the PDF."
    generate_embeddings := fun _ => { chunks := ["c"], embeddings := [[1]] }
    now := 0 }

def contentW5 : Bytes := [37, 80, 68, 70]

/-! ## The RAG engine (`src/utils/rag.py`, `RAGSystem`)

The collaborators probed by duck typing — the vector store's `search` /
`similarity_search`, the embedding model and the language model — are
injected objects; they are modelled as function parameters whose calls can
raise (`Except String`). -/

/-- A Python value as a generation backend may return it: a string, a dict,
a list, or any other object (`obj`, carrying an opaque tag). -/
inductive LLMResp where
  | s : String → LLMResp
  | dict : List (String × LLMResp) → LLMResp
  | list : List LLMResp → LLMResp
  | obj : String → LLMResp

/-- `str(x)`.  Claims only depend on the result being a string, so the
rendering of non-strings is a stand-in. -/
def pyStr : LLMResp → String
  | .s x => x
  | .dict _ => "<dict>"
  | .list _ => "<list>"
  | .obj tag => tag

def isStr : LLMResp → Bool
  | .s _ => true
  | _ => false

/-- The response-shape cleanup block (`_generate_response`, lines 264-278,
identical in `summarize_document`): a dict is replaced by its `text` /
`generated_text` / `response` entry (first present) or by `str(response)`;
a nonempty list by its head's `text` entry (when the head is a dict with
one) or `str(response[0])`; anything else — including an empty list — is
left unchanged. -/
def cleanupResponse (response : LLMResp) : LLMResp :=
  match response with
  | .dict kvs =>
    match dictFind kvs "text" with
    | some v => v
    | none =>
      match dictFind kvs "generated_text" with
      | some v => v
      | none =>
        match dictFind kvs "response" with
        | some v => v
        | none => .s (pyStr response)
  | .list [] => response
  | .list (x :: _) =>
    match x with
    | .dict kvs =>
      match dictFind kvs "text" with
      | some v => v
      | none => .s (pyStr x)
    | _ => .s (pyStr x)
  | _ => response

/-- `formatted.split('\n')`. -/
def splitOnNl : PyText → PyText → List PyText
  | [], acc => [acc.reverse]
  | '\n' :: rest, acc => acc.reverse :: splitOnNl rest []
  | c :: rest, acc => splitOnNl rest (c :: acc)

/-- `line.startswith(prefix_)` for one prefix. -/
def startsWithPy : PyText → PyText → Bool
  | [], _ => true
  | _ :: _, [] => false
  | p :: ps, c :: cs => p == c && startsWithPy ps cs

/-- The scaffolding prefixes `_format_response` filters out (line 310). -/
def promptPrefixes : List PyText :=
  ["You are".toList, "INSTRUCTIONS:".toList, "CONTEXT INFORMATION:".toList,
   "USER QUESTION:".toList, "RESPONSE:".toList]

/-- The line-cleaning loop (lines 304-312): strip each line, drop empty
lines only while nothing has been kept yet, drop scaffolding lines, keep
the rest in order. -/
def cleanLines : List PyText → List PyText → List PyText
  | [], cleaned => cleaned
  | l :: rest, cleaned =>
    if pyStrip l = [] ∧ cleaned = [] then cleanLines rest cleaned
    else if promptPrefixes.any (fun p => startsWithPy p (pyStrip l)) then
      cleanLines rest cleaned
    else cleanLines rest (cleaned ++ [pyStrip l])

def countDigitsPrefix : PyText → Nat
  | [] => 0
  | c :: rest => if c.isDigit then countDigitsPrefix rest + 1 else 0

def countWsPrefix : PyText → Nat
  | [] => 0
  | c :: rest => if isPySpace c then countWsPrefix rest + 1 else 0

/-- Whether the last character of a consumed separator is a newline — that
decides whether the position right after it is a `^` match point under
`re.MULTILINE`. -/
def lastIsNl (l : PyText) : Bool :=
  match l.getLast? with
  | some ch => ch == '\n'
  | none => false

/-- `re.sub(r'^(\d+)\.\s*', '\n\g. ', text, flags=re.MULTILINE)` with the
captured digits in place of `\g`: at each line start, digits followed by a
dot and a greedy whitespace run (which may swallow following newlines) are
rewritten to newline + digits + dot + space. -/
def numSub : PyText → Bool → PyText
  | [], _ => []
  | c :: rest, atStart =>
    if atStart ∧ c.isDigit then
      match hdot : (c :: rest).drop (countDigitsPrefix (c :: rest)) with
      | '.' :: afterDot =>
        '\n' :: ((c :: rest).take (countDigitsPrefix (c :: rest)) ++
          '.' :: ' ' ::
            numSub (afterDot.drop (countWsPrefix afterDot))
              (lastIsNl (afterDot.take (countWsPrefix afterDot))))
      | _ => c :: numSub rest (c == '\n')
    else c :: numSub rest (c == '\n')
termination_by t _ => t.length
decreasing_by
  · have hlen := congrArg List.length hdot
    simp only [List.length_drop, List.length_cons] at hlen ⊢
    omega
  · simp
  · simp

/-- `re.sub(r'^[\*\-]\s*', '\n• ', text, flags=re.MULTILINE)`. -/
def bulletSub : PyText → Bool → PyText
  | [], _ => []
  | c :: rest, atStart =>
    if atStart ∧ (c == '*' || c == '-') then
      '\n' :: '•' :: ' ' ::
        bulletSub (rest.drop (countWsPrefix rest))
          (lastIsNl (rest.take (countWsPrefix rest)))
    else c :: bulletSub rest (c == '\n')
termination_by t _ => t.length
decreasing_by
  · simp only [List.length_drop, List.length_cons]
    omega
  · simp

/-- `re.sub(r'\n\x7b3,\x7d', '\n\n', text)`: clamp every run of three or
more newlines to exactly two; `n` counts the pending newline run. -/
def collapseNl : PyText → Nat → PyText
  | [], n => List.replicate (min n 2) '\n'
  | c :: rest, n =>
    if c == '\n' then collapseNl rest (n + 1)
    else List.replicate (min n 2) '\n' ++ c :: collapseNl rest 0

/-- The string branch of `_format_response` (lines 296-328). -/
def formatBody (t : PyText) : PyText :=
  pyStrip (collapseNl
    (bulletSub (numSub (pyStrip (joinWith ['\n']
      (cleanLines (splitOnNl (pyStrip t) []) []))) true) true) 0)

/-- `_format_response` (lines 292-328): `None`, non-strings and the empty
string are returned unchanged (`if not response_text or not
isinstance(response_text, str): return response_text`); real strings are
cleaned and reformatted. -/
def formatResponse : LLMResp → LLMResp
  | .s x => if x = "" then .s x else .s (String.mk (formatBody x.toList))
  | r => r

/-- The injected language model: `None`, an object with none of
`generate` / `predict` / `__call__`, or a callable entry point that may
raise. -/
inductive LLMModel where
  | nonePy : LLMModel
  | unsupported : LLMModel
  | callable : (String → Except String LLMResp) → LLMModel

/-- The injected embedding model as `_get_query_embedding` (lines 100-127)
sees it: missing, lacking every supported method, or an encoding capability
(`encode` / `embed_query` / `embed_documents`) that may raise. -/
inductive EmbModel where
  | nonePy : EmbModel
  | noMethod : EmbModel
  | encode : (String → Except String Vec) → EmbModel

/-- `_get_query_embedding`: returns `None` on a missing model, a missing
method, or any exception (caught inside). -/
def getQueryEmbedding (emb : EmbModel) (text : String) : Option Vec :=
  match emb with
  | .nonePy => none
  | .noMethod => none
  | .encode f =>
    match f text with
    | .ok v => some v
    | .error _ => none

/-- One retrieved document as `_generate_response` inspects it:
`page_content` when the object has that attribute, the `source` and `page`
metadata entries when it has `metadata`, and its `str()` rendering. -/
structure RDoc where
  page_content : Option String
  has_metadata : Bool
  source : Option String
  page : Option Int
  str_ : String

def pyStripS (s : String) : String :=
  String.mk (pyStrip s.toList)

/-- The source annotation built in lines 220-224 (when the document has no
`metadata` attribute the annotation still gains the closing parenthesis). -/
def docSource (d : RDoc) : String :=
  let source := if d.has_metadata then " (Source: " ++ d.source.getD "unknown" else ""
  if d.has_metadata ∧ d.page.isSome then
    source ++ ", Page: " ++ toString (d.page.getD 0 + 1) ++ ")"
  else source ++ ")"

/-- One `[i+1](source)\ntext\n\n` block of the context (lines 217-230). -/
def docBlock (i : Nat) (d : RDoc) : String :=
  match d.page_content with
  | some t => "[" ++ toString (i + 1) ++ "]" ++ docSource d ++ "\n" ++ pyStripS t ++ "\n\n"
  | none => "[" ++ toString (i + 1) ++ "]" ++ "\n" ++ pyStripS d.str_ ++ "\n\n"

def contextTextAux : Nat → List RDoc → String
  | _, [] => ""
  | i, d :: ds => docBlock i d ++ contextTextAux (i + 1) ds

/-- `context_text` accumulated over `context[:5]`. -/
def contextText (docs : List RDoc) : String :=
  contextTextAux 0 (docs.take 5)

/-- The instruction prompt of `_generate_response` (lines 232-249). -/
def buildPrompt (question : String) (context : List RDoc) : String :=
  "\nYou are a knowledgeable AI assistant specializing in providing clear, well-structured answers. \nPlease answer the user\x27s question based on the provided context information.\n\nINSTRUCTIONS:\n- Provide a comprehensive, well-organized response\n- Use bullet points, numbered lists, or sections when appropriate\n- Include relevant examples or details from the context\n- If the context doesn\x27t contain enough information, clearly state what you know and what you cannot determine\n- Format your response to be easy to read and understand\n\nCONTEXT INFORMATION:\n"
    ++ pyStripS (contextText context)
    ++ "\n\nUSER QUESTION: " ++ question ++ "\n\nRESPONSE:\n"

/-- `_generate_response` (lines 199-290): missing model and the
no-known-method probe produce fixed strings; an exception from the model is
caught into a string; otherwise the response is normalized
(`cleanupResponse`) and formatted (`formatResponse`). -/
def generateResponse (llm : LLMModel) (question : String)
    (context : List RDoc) : LLMResp :=
  match llm with
  | .nonePy => .s "No language model available to generate a response."
  | .unsupported =>
    .s "Error: Language model doesn\x27t support a recognized generation method."
  | .callable f =>
    match f (buildPrompt question context) with
    | .error e => .s ("I encountered an error while generating a response: " ++ e)
    | .ok response => formatResponse (cleanupResponse response)

/-- The retrieval step with its fallback (lines 74-84): if
`vector_store.search` raises, call `similarity_search(question, ...)` when
the store has one (note: it is handed the question string, not the
embedding), else `raise ValueError`. -/
def retrieveDocs (vsearch : Vec → Nat → Except String (List RDoc))
    (simSearch : Option (String → Except String (List RDoc)))
    (question : String) (query_embedding : Vec) (k : Nat) :
    Except String (List RDoc) :=
  match vsearch query_embedding k with
  | .ok docs => .ok docs
  | .error _ =>
    match simSearch with
    | some f => f question
    | none => .error "Vector store doesn\x27t support search or similarity_search methods"

/-- The body of `query` (lines 61-94) before the outer `except`:
pre-supplied truthy context short-circuits retrieval; a failed embedding
yields a fixed string; retrieval failures propagate as exceptions;
reranking (modelled by the injected total function `rerankFn`, since
`_rerank_documents` catches every exception and always returns a document
list) runs only on more than one retrieved document. -/
def ragQueryBody (vsearch : Vec → Nat → Except String (List RDoc))
    (simSearch : Option (String → Except String (List RDoc)))
    (rerankFn : String → List RDoc → List RDoc)
    (emb : EmbModel) (llm : LLMModel) (question : String)
    (context : Option (List RDoc)) (k : Nat) (rerank : Bool) :
    Except String LLMResp :=
  match context with
  | some (d :: ds) => .ok (generateResponse llm question (d :: ds))
  | _ =>
    match getQueryEmbedding emb question with
    | none =>
      .ok (.s "Unable to generate embedding for your question. Please check embedding model configuration.")
    | some query_embedding =>
      match retrieveDocs vsearch simSearch question query_embedding k with
      | .error e => .error e
      | .ok relevant_docs =>
        .ok (generateResponse llm question
          (if rerank ∧ relevant_docs.length > 1 then
            rerankFn question relevant_docs
          else relevant_docs))

/-- `query` (lines 49-98): the whole body is wrapped in
`try/except Exception`, converting any exception into the string
`"Sorry, I encountered an error: ..."`. -/
def ragQuery (vsearch : Vec → Nat → Except String (List RDoc))
    (simSearch : Option (String → Except String (List RDoc)))
    (rerankFn : String → List RDoc → List RDoc)
    (emb : EmbModel) (llm : LLMModel) (question : String)
    (context : Option (List RDoc)) (k : Nat) (rerank : Bool) : LLMResp :=
  match ragQueryBody vsearch simSearch rerankFn emb llm question context k rerank with
  | .ok v => v
  | .error e => .s ("Sorry, I encountered an error: " ++ e)

/-- Generation responses whose normalization yields a string: a plain
string; a dict whose first present entry among `text` / `generated_text` /
`response` is a string, or with none of them (then `str()` applies); a
nonempty list whose head is a dict with a string `text` entry, a dict
without `text`, or a non-dict (then `str()` applies). -/
def respShapeGood : LLMResp → Bool
  | .s _ => true
  | .dict kvs =>
    match dictFind kvs "text" with
    | some v => isStr v
    | none =>
      match dictFind kvs "generated_text" with
      | some v => isStr v
      | none =>
        match dictFind kvs "response" with
        | some v => isStr v
        | none => true
  | .list [] => false
  | .list (x :: _) =>
    match x with
    | .dict kvs =>
      match dictFind kvs "text" with
      | some v => isStr v
      | none => true
    | _ => true
  | .obj _ => false

/-- A language model whose successful results all normalize to strings
(failures and missing models are always converted to strings anyway). -/
def llmGood : LLMModel → Prop
  | .callable f => ∀ p r, f p = .ok r → respShapeGood r = true
  | _ => True

/-- A retrieved document for the C2 counterexample and witness. -/
def docC2 : RDoc :=
  { page_content := some "chunk", has_metadata := false, source := none,
    page := none, str_ := "chunk" }

/-! ## Lemmas about the store operations -/

theorem dictFind_erase_self {β : Type} (m : List (String × β)) (k : String) :
    dictFind (dictErase m k) k = none := by
  induction m with
  | nil => rfl
  | cons p rest ih =>
    by_cases h : p.1 = k
    · simpa [dictErase, dictFind, h] using ih
    · simpa [dictErase, dictFind, h] using ih

theorem dictContains_false_find_none {β : Type} {m : List (String × β)}
    {k : String} (h : dictContains m k = false) : dictFind m k = none := by
  unfold dictContains at h
  cases hf : dictFind m k with
  | none => rfl
  | some v => rw [hf] at h; simp at h

/-- A hit accepted by the search loop body names a document that is present
in the document map with an in-range chunk. -/
theorem searchHit_sound {vs : VS} {p : Nat × Int} {r : SearchResult}
    (h : vs.searchHit p = some r) :
    ∃ info, dictFind vs.documents r.doc_id = some info ∧ r.chunk ∈ info.chunks := by
  unfold VS.searchHit at h
  split at h
  · exact absurd h (by simp)
  · split at h
    · exact absurd h (by simp)
    · next doc_id hid info hfind =>
      split at h
      · exact absurd h (by simp)
      · next hrange =>
        push_neg at hrange
        obtain ⟨hge, hlt⟩ := hrange
        cases h
        refine ⟨info, hfind, ?_⟩
        have hnat : ((p.1 : Int) - (info.chunk_start_idx : Int)).toNat <
            info.chunks.length := by omega
        have hgd := List.getD_eq_getElem info.chunks ""
          (n := ((p.1 : Int) - (info.chunk_start_idx : Int)).toNat) hnat
        rw [hgd]
        exact List.getElem_mem hnat

/-- Every result of `search` resolves to a live document record containing
the returned chunk. -/
theorem mem_search_elim {vs : VS} {q : Vec} {k : Nat} {t : Option Int}
    {r : SearchResult} (h : r ∈ vs.search q k t) :
    ∃ info, dictFind vs.documents r.doc_id = some info ∧ r.chunk ∈ info.chunks := by
  unfold VS.search at h
  split at h
  · exact absurd h (by simp)
  · have h2 : r ∈ (faissSearch vs.index q (min k vs.index.length)).filterMap
        vs.searchHit := by
      cases t with
      | none => exact h
      | some tt => exact List.mem_of_mem_filter h
    obtain ⟨p, _, hps⟩ := List.mem_filterMap.mp h2
    exact searchHit_sound hps

/-- After any `remove_document d` call the document map does not resolve
`d`, whether or not the removal succeeded. -/
theorem remove_document_find_none (vs : VS) (disk : Disk) (d : String) :
    dictFind ((vs.remove_document disk d).1).documents d = none := by
  unfold VS.remove_document
  cases hc : dictContains vs.documents d with
  | false => simp only [hc]; simpa using dictContains_false_find_none hc
  | true => simp only [hc]; simpa using dictFind_erase_self vs.documents d

/-- C1: every result returned by `search` has a `doc_id` present in the
document map (with the returned chunk text stored under that record); after
`remove_document d` no search result carries `doc_id = d`, even though the
FAISS index still holds d's vectors (third conjunct: removal leaves the
index untouched). -/
theorem search_results_document_store_consistent
    (vs : VS) (disk : Disk) (d : String) (q : Vec) (k : Nat) (t : Option Int) :
    (∀ r ∈ vs.search q k t, dictContains vs.documents r.doc_id = true)
    ∧ (∀ r ∈ ((vs.remove_document disk d).1).search q k t, r.doc_id ≠ d)
    ∧ ((vs.remove_document disk d).1).index = vs.index := by
  refine ⟨?_, ?_, ?_⟩
  · intro r hr
    obtain ⟨info, hfind, _⟩ := mem_search_elim hr
    simp [dictContains, hfind]
  · intro r hr hEq
    obtain ⟨info, hfind, _⟩ := mem_search_elim hr
    rw [hEq, remove_document_find_none] at hfind
    exact absurd hfind (by simp)
  · unfold VS.remove_document
    split <;> rfl

/-- Witness for C1 at a concrete store and query. -/
theorem search_results_document_store_consistent_witness :
    rW1 ∈ vsW1.search [1, 0] 1 none
    ∧ dictContains vsW1.documents rW1.doc_id = true :=
  ⟨by decide,
    (search_results_document_store_consistent vsW1 none "x" [1, 0] 1 none).1
      rW1 (by decide)⟩

/-- C4: in every reachable store the id-lookup sequence and the FAISS
index have the same length (`len(doc_ids) == index.ntotal`). -/
theorem doc_ids_length_eq_ntotal (vs : VS) (h : Reachable vs) :
    vs.doc_ids.length = vs.index.length := by
  induction h with
  | empty dim => rfl
  | add vs disk id chunks embeddings md hlen hfresh hvs ih =>
    simp only [VS.add_document, List.length_append, List.length_replicate]
    omega
  | remove vs disk id hvs ih =>
    unfold VS.remove_document
    split
    · exact ih
    · simpa using ih

/-- Witness for C4 on a concrete add/remove trace. -/
theorem doc_ids_length_eq_ntotal_witness :
    vsW4.doc_ids.length = vsW4.index.length :=
  doc_ids_length_eq_ntotal vsW4
    (.remove _ none "zzz"
      (.add _ none "d1" ["a", "b"] [[1, 0], [0, 1]] mdNone
        (by decide) (by decide) (.empty 2)))

/-- `search` reads only the index, the id-lookup sequence and the document
map; everything else about the store is irrelevant. -/
theorem search_congr (vs1 vs2 : VS) (hI : vs1.index = vs2.index)
    (hD : vs1.documents = vs2.documents) (hids : vs1.doc_ids = vs2.doc_ids)
    (q : Vec) (k : Nat) (t : Option Int) :
    vs1.search q k t = vs2.search q k t := by
  cases vs1
  cases vs2
  simp only at hI hD hids
  subst hI
  subst hD
  subst hids
  rfl

/-- C6: `save()` followed by a fresh construction (`__init__` runs `load`)
over the same store path restores the document records, the id-lookup
sequence, and gives identical search results for every query. -/
theorem save_load_roundtrip (vs : VS) (dim : Nat) (q : Vec) (k : Nat)
    (t : Option Int) :
    (VS.init dim vs.save).documents = vs.documents
    ∧ (VS.init dim vs.save).doc_ids = vs.doc_ids
    ∧ (VS.init dim vs.save).search q k t = vs.search q k t :=
  ⟨rfl, rfl, search_congr _ _ rfl rfl rfl q k t⟩

/-- C7 (amended): both mutating calls persist the full store by running
`save` before returning (`remove_document` only when it found the document;
otherwise the disk is untouched), but `save` itself is an in-place
truncate-then-write, so its intermediate disk state is a torn file that
matches neither the previous nor the new store: the write is not an
all-or-nothing commit. -/
theorem mutating_calls_persist_but_save_not_atomic
    (vs : VS) (disk : Disk) (id : String) (chunks : List String)
    (embeddings : List Vec) (md : Metadata) (d0 : StoreData) :
    (vs.add_document disk id chunks embeddings md).2.1
        = (vs.add_document disk id chunks embeddings md).1.save
    ∧ (vs.remove_document disk id).2.1
        = (if dictContains vs.documents id = false then disk
           else (vs.remove_document disk id).1.save)
    ∧ ¬ allOrNothing (some (.valid d0)) vs.save vs.saveSteps := by
  refine ⟨rfl, ?_, ?_⟩
  · unfold VS.remove_document
    split
    · next hcond => simp [hcond]
    · next hcond => simp [if_neg hcond]
  · intro h
    have h2 := h (some .corrupt) (by simp [VS.saveSteps])
    rcases h2 with h2 | h2 <;> simp [VS.save] at h2

/-- C7 counterexample: while `save` rewrites the store file, the disk passes
through a state that is neither the old store nor the new one, so a failure
mid-save leaves a torn file — the persisted store is not written
all-or-nothing. -/
theorem save_not_all_or_nothing_counterexample :
    ¬ allOrNothing (some (.valid dC7)) vsC7.save vsC7.saveSteps := by
  intro h
  have h2 := h (some .corrupt) (by simp [VS.saveSteps, vsC7])
  rcases h2 with h2 | h2 <;> simp [VS.save] at h2

/-- C8: `load` is total (the body's exceptions are caught): a missing file
leaves the store as initialized — a fresh store stays empty — and a corrupt
file degrades the store to an empty document map and empty id-lookup
sequence instead of raising. -/
theorem load_never_fatal (vs : VS) (d : StoreData) (dim : Nat) :
    vs.load none = vs
    ∧ VS.init dim none = VS.emptyStore dim
    ∧ (vs.load (some .corrupt)).documents = []
    ∧ (vs.load (some .corrupt)).doc_ids = []
    ∧ vs.load (some (.valid d))
        = { vs with
            documents := d.documents
            doc_ids := d.doc_ids
            index := d.index } :=
  ⟨rfl, rfl, rfl, rfl, rfl⟩

/-- C9 (amended): `search` fetches only `min(top_k, ntotal)` raw candidates
and filters afterwards, so it returns at most `top_k` results (and possibly
fewer, even when enough live entries exist — see the counterexample). -/
theorem search_returns_at_most_top_k (vs : VS) (q : Vec) (k : Nat)
    (t : Option Int) : (vs.search q k t).length ≤ k := by
  unfold VS.search
  split
  · simp
  · have hbase :
        ((faissSearch vs.index q (min k vs.index.length)).filterMap
          vs.searchHit).length ≤ k := by
      calc ((faissSearch vs.index q (min k vs.index.length)).filterMap
              vs.searchHit).length
          ≤ (faissSearch vs.index q (min k vs.index.length)).length :=
            List.length_filterMap_le _ _
        _ ≤ min k vs.index.length := by
            unfold faissSearch
            simp [List.length_take]
        _ ≤ k := Nat.min_le_left _ _
    cases t with
    | none => exact hbase
    | some tt => exact le_trans (List.length_filter_le _ _) hbase

/-- C9 counterexample: the index holds `top_k = 1` live entries, yet
`search` returns no result, because the single raw candidate it fetched was
an orphaned hit of the removed document — `search` does not fetch more
candidates to skip orphans. -/
theorem search_no_overfetch_counterexample :
    1 ≤ vsC9.liveEntryCount ∧ (vsC9.search [0] 1 none).length = 0 := by decide

/-- C10: removing an id that is not in the document map returns `False` and
leaves the store, the id-lookup sequence, the index, and the disk exactly as
they were (no save happens). -/
theorem remove_absent_id_frame (vs : VS) (disk : Disk) (d : String)
    (h : vs.has_document d = false) :
    vs.remove_document disk d = (vs, disk, false) := by
  unfold VS.remove_document
  unfold VS.has_document at h
  simp [h]

/-- Witness for C10 on a concrete nonempty store and absent id. -/
theorem remove_absent_id_frame_witness :
    vsW10.has_document "missing" = false
    ∧ vsW10.remove_document vsW10.save "missing"
        = (vsW10, vsW10.save, false) :=
  ⟨by decide,
    remove_absent_id_frame vsW10 vsW10.save "missing" (by decide)⟩

/-! ## Lemmas about the chunker -/

theorem pyStripLeft_length_le (t : PyText) : (pyStripLeft t).length ≤ t.length := by
  induction t with
  | nil => simp [pyStripLeft]
  | cons c cs ih =>
    simp only [pyStripLeft]
    split
    · simp only [List.length_cons]; omega
    · simp

theorem pyStrip_length_le (t : PyText) : (pyStrip t).length ≤ t.length := by
  unfold pyStrip
  calc ((pyStripLeft ((pyStripLeft t).reverse)).reverse).length
      = (pyStripLeft ((pyStripLeft t).reverse)).length := List.length_reverse _
    _ ≤ ((pyStripLeft t).reverse).length := pyStripLeft_length_le _
    _ = (pyStripLeft t).length := List.length_reverse _
    _ ≤ t.length := pyStripLeft_length_le t

theorem splitParasAux_length_le (t acc : PyText) :
    ∀ q ∈ splitParasAux t acc, q.length ≤ t.length + acc.length := by
  induction t, acc using splitParasAux.induct with
  | case1 acc =>
    intro q hq
    simp only [splitParasAux, List.mem_singleton] at hq
    subst hq
    simp
  | case2 rest acc ih =>
    intro q hq
    simp only [splitParasAux] at hq
    rcases List.mem_cons.mp hq with hq | hq
    · subst hq; simp only [List.length_reverse, List.length_cons]; omega
    · have h := ih q hq
      simp only [List.length_nil, List.length_cons] at h ⊢
      omega
  | case3 c rest acc h1 ih =>
    intro q hq
    simp only [splitParasAux] at hq
    have h := ih q hq
    simp only [List.length_cons] at h ⊢
    omega

theorem mem_splitParas_length_le {t q : PyText} (h : q ∈ splitParas t) :
    q.length ≤ t.length := by
  have h2 := splitParasAux_length_le t [] q h
  simpa using h2

theorem sentSplitAux_length_le (t acc : PyText) (skipping : Bool) :
    ∀ s ∈ sentSplitAux t acc skipping, s.length ≤ t.length + acc.length := by
  induction t, acc, skipping using sentSplitAux.induct with
  | case1 acc =>
    intro s hs
    simp [sentSplitAux] at hs
    subst hs
    simp
  | case2 acc skipping hns =>
    intro s hs
    simp only [sentSplitAux, if_neg hns, List.mem_singleton] at hs
    subst hs
    simp
  | case3 c rest acc hws ih =>
    intro s hs
    simp [sentSplitAux, hws] at hs
    have h := ih s hs
    simp only [List.length_cons] at h ⊢
    omega
  | case4 c rest acc hws ih =>
    intro s hs
    simp [sentSplitAux, hws] at hs
    have h := ih s hs
    simp only [List.length_cons, List.length_nil] at h ⊢
    omega
  | case5 c rest acc skipping hns hcl ih =>
    intro s hs
    simp only [sentSplitAux, if_neg hns, if_pos hcl] at hs
    rcases List.mem_cons.mp hs with hs | hs
    · subst hs; simp only [List.length_reverse, List.length_cons]; omega
    · have h := ih s hs
      simp only [List.length_nil, List.length_cons] at h ⊢
      omega
  | case6 c rest acc skipping hns hcl ih =>
    intro s hs
    simp only [sentSplitAux, if_neg hns, if_neg hcl] at hs
    have h := ih s hs
    simp only [List.length_cons] at h ⊢
    omega

theorem mem_splitSentences_length_le {p s : PyText} (h : s ∈ splitSentences p) :
    s.length ≤ p.length := by
  have h2 := sentSplitAux_length_le p [] false s h
  simpa using h2


theorem joinWith_append (sep x : PyText) {l : List PyText} (h : l ≠ []) :
    joinWith sep (l ++ [x]) = joinWith sep l ++ sep ++ x := by
  induction l with
  | nil => exact absurd rfl h
  | cons a rest ih =>
    cases rest with
    | nil => simp [joinWith]
    | cons b rest2 =>
      have ih2 := ih (by simp)
      simp only [List.cons_append] at ih2 ⊢
      simp only [joinWith]
      rw [ih2]
      simp [List.append_assoc]

theorem joinSp_length {l : List PyText} (h : l ≠ []) :
    (joinWith [' '] l).length + 1 = sumLen l + l.length := by
  induction l with
  | nil => exact absurd rfl h
  | cons a rest ih =>
    cases rest with
    | nil => simp [joinWith, sumLen]
    | cons b rest2 =>
      have ih2 := ih (by simp)
      simp only [joinWith, sumLen, List.map_cons, List.sum_cons, List.length_append,
        List.length_cons, List.length_nil] at ih2 ⊢
      omega

theorem lastTwo_subset {sc : List PyText} : ∀ s ∈ lastTwo sc, s ∈ sc := by
  intro s hs
  unfold lastTwo at hs
  split at hs
  · exact List.drop_subset _ _ hs
  · exact hs

theorem lastTwo_length_le (sc : List PyText) : (lastTwo sc).length ≤ 2 := by
  unfold lastTwo
  split
  · next h => simp only [List.length_drop]; omega
  · next h => omega

theorem lastTwo_ne_nil {sc : List PyText} (h : sc ≠ []) : lastTwo sc ≠ [] := by
  unfold lastTwo
  split
  · next h2 =>
    intro habs
    have h3 := congrArg List.length habs
    simp only [List.length_drop, List.length_nil] at h3
    omega
  · exact h

theorem getLastD_mem {l : List PyText} (d : PyText) (h : l ≠ []) :
    l.getLastD d ∈ l := by
  induction l generalizing d with
  | nil => exact absurd rfl h
  | cons a rest ih =>
    rw [List.getLastD_cons]
    cases hr : rest with
    | nil => simp [List.getLastD]
    | cons b r2 =>
      have h2 := ih a (by simp [hr])
      rw [hr] at h2
      exact List.mem_cons_of_mem _ h2

theorem sumLen_le_two_mul {sc : List PyText} {M : Nat}
    (hlen : sc.length ≤ 2) (hM : ∀ s ∈ sc, s.length ≤ M) : sumLen sc ≤ 2 * M := by
  rcases sc with _ | ⟨a, _ | ⟨b, _ | ⟨c, r⟩⟩⟩
  · simp [sumLen]
  · have := hM a (by simp)
    simp only [sumLen, List.map_cons, List.map_nil, List.sum_cons, List.sum_nil]
    omega
  · have ha := hM a (by simp)
    have hb := hM b (by simp)
    simp only [sumLen, List.map_cons, List.map_nil, List.sum_cons, List.sum_nil]
    omega
  · simp only [List.length_cons] at hlen
    omega


theorem nlnl_length : nlnl.length = 2 := rfl

theorem sentLoop_invariant (cs M B : Nat) (hB : cs + 3 * M + 2 ≤ B)
    (sents : List PyText) :
    ∀ (chunks sc : List PyText) (scl : Nat),
      (∀ s ∈ sents, s.length ≤ M) →
      (∀ s ∈ sc, s.length ≤ M) →
      (joinWith [' '] sc).length ≤ scl →
      (sc = [] → scl = 0) →
      scl ≤ cs + 3 * M + 2 →
      (∀ c ∈ chunks, c.length ≤ B) →
      (∀ c ∈ (sentLoop cs sents chunks sc scl).1, c.length ≤ B)
      ∧ (∀ s ∈ (sentLoop cs sents chunks sc scl).2.1, s.length ≤ M)
      ∧ (joinWith [' '] (sentLoop cs sents chunks sc scl).2.1).length
          ≤ (sentLoop cs sents chunks sc scl).2.2
      ∧ (sentLoop cs sents chunks sc scl).2.2 ≤ cs + 3 * M + 2 := by
  induction sents with
  | nil =>
    intro chunks sc scl hs hsc hjoin hemp hscl hch
    simp only [sentLoop]
    exact ⟨hch, hsc, hjoin, hscl⟩
  | cons s rest ih =>
    intro chunks sc scl hs hsc hjoin hemp hscl hch
    have hsM : s.length ≤ M := hs s (List.mem_cons_self s rest)
    have hrest : ∀ x ∈ rest, x.length ≤ M := fun x hx => hs x (List.mem_cons_of_mem s hx)
    simp only [sentLoop]
    split
    · next hcond =>
      obtain ⟨hover, hne⟩ := hcond
      have hltne : lastTwo sc ≠ [] := lastTwo_ne_nil hne
      have hltM : ∀ x ∈ lastTwo sc, x.length ≤ M := fun x hx => hsc x (lastTwo_subset x hx)
      have hlt2 : (lastTwo sc).length ≤ 2 := lastTwo_length_le sc
      have hltsum : sumLen (lastTwo sc) ≤ 2 * M := sumLen_le_two_mul hlt2 hltM
      have hjl : (joinWith [' '] (lastTwo sc)).length + 1
          = sumLen (lastTwo sc) + (lastTwo sc).length := joinSp_length hltne
      apply ih
      · exact hrest
      · intro x hx
        rcases List.mem_append.mp hx with hx | hx
        · exact hltM x hx
        · rw [List.mem_singleton.mp hx]; exact hsM
      · rw [joinWith_append _ _ hltne]
        simp only [List.length_append, List.length_cons, List.length_nil]
        omega
      · intro habs
        exact absurd habs (by simp)
      · omega
      · intro c hc
        rcases List.mem_append.mp hc with hc | hc
        · exact hch c hc
        · rw [List.mem_singleton.mp hc]
          omega
    · next hcond =>
      push_neg at hcond
      apply ih
      · exact hrest
      · intro x hx
        rcases List.mem_append.mp hx with hx | hx
        · exact hsc x hx
        · rw [List.mem_singleton.mp hx]; exact hsM
      · by_cases hne : sc = []
        · subst hne
          simp only [List.nil_append, joinWith]
          omega
        · rw [joinWith_append _ _ hne]
          simp only [List.length_append, List.length_cons, List.length_nil]
          omega
      · intro habs
        exact absurd habs (by simp)
      · by_cases hle : scl + s.length ≤ cs
        · omega
        · have hsc0 : sc = [] := hcond (by omega)
          have hscl0 := hemp hsc0
          omega
      · exact hch

theorem closeParaChunk_bound {B : Nat} {chunks cur : List PyText}
    (hch : ∀ c ∈ chunks, c.length ≤ B)
    (hjoin : (joinWith nlnl cur).length ≤ B) :
    ∀ c ∈ closeParaChunk chunks cur, c.length ≤ B := by
  intro c hc
  unfold closeParaChunk at hc
  split at hc
  · rcases List.mem_append.mp hc with hc | hc
    · exact hch c hc
    · rw [List.mem_singleton.mp hc]; exact hjoin
  · exact hch c hc

theorem oversizedParaChunks_bound (cs : Nat) {N B : Nat}
    (hB : cs + 3 * N + 2 ≤ B) {chunks : List PyText} {p : PyText}
    (hp : p.length ≤ N) (hch : ∀ c ∈ chunks, c.length ≤ B) :
    ∀ c ∈ oversizedParaChunks cs chunks p, c.length ≤ B := by
  intro c hc
  unfold oversizedParaChunks at hc
  have hinv := sentLoop_invariant cs N B hB (splitSentences p) chunks [] 0
    (fun s hs => le_trans (mem_splitSentences_length_le hs) hp)
    (by intro s hs; exact absurd hs (by simp))
    (by simp [joinWith])
    (fun _ => rfl)
    (by omega)
    hch
  obtain ⟨h1, h2, h3, h4⟩ := hinv
  rcases hsl : sentLoop cs (splitSentences p) chunks [] 0 with ⟨ch2, sc2, scl2⟩
  rw [hsl] at hc h1 h3 h4
  simp only at hc h1 h3 h4
  split at hc
  · rcases List.mem_append.mp hc with hcm | hcm
    · exact h1 c hcm
    · rw [List.mem_singleton.mp hcm]
      omega
  · exact h1 c hc

theorem paraLoop_invariant (cs N : Nat) (paras : List PyText) :
    ∀ (chunks cur : List PyText) (curLen : Nat),
      (∀ p ∈ paras, p.length ≤ N) →
      (∀ p ∈ cur, p.length ≤ N) →
      (joinWith nlnl cur).length ≤ curLen + 2 →
      curLen ≤ cs + 2 * N + 2 →
      (∀ c ∈ chunks, c.length ≤ cs + 3 * N + 4) →
      (∀ c ∈ (paraLoop cs paras chunks cur curLen).1, c.length ≤ cs + 3 * N + 4)
      ∧ (∀ p2 ∈ (paraLoop cs paras chunks cur curLen).2.1, p2.length ≤ N)
      ∧ (joinWith nlnl (paraLoop cs paras chunks cur curLen).2.1).length
          ≤ (paraLoop cs paras chunks cur curLen).2.2 + 2
      ∧ (paraLoop cs paras chunks cur curLen).2.2 ≤ cs + 2 * N + 2 := by
  induction paras with
  | nil =>
    intro chunks cur curLen hpar hcur hjoin hcl hch
    simp only [paraLoop]
    exact ⟨hch, hcur, hjoin, hcl⟩
  | cons p rest ih =>
    intro chunks cur curLen hpar hcur hjoin hcl hch
    have hpN : p.length ≤ N := hpar p (List.mem_cons_self p rest)
    have hrest : ∀ x ∈ rest, x.length ≤ N := fun x hx => hpar x (List.mem_cons_of_mem p hx)
    have hclose : ∀ c ∈ closeParaChunk chunks cur, c.length ≤ cs + 3 * N + 4 :=
      closeParaChunk_bound hch (by omega)
    simp only [paraLoop]
    split
    · next hcond1 =>
      split
      · next hcond2 =>
        apply ih
        · exact hrest
        · intro x hx; exact absurd hx (by simp)
        · simp [joinWith]
        · omega
        · exact oversizedParaChunks_bound cs (by omega) hpN hclose
      · next hcond2 =>
        apply ih
        · exact hrest
        · intro x hx
          rcases List.mem_append.mp hx with hx | hx
          · unfold overlapSeed at hx
            split at hx
            · next hcc =>
              rw [List.mem_singleton.mp hx]
              exact hcur _ (getLastD_mem _ hcc.1)
            · exact absurd hx (by simp)
          · rw [List.mem_singleton.mp hx]; exact hpN
        · unfold overlapSeed overlapLen
          by_cases hcc : cur ≠ [] ∧ 1 < cur.length
          · rw [if_pos hcc, if_pos hcc]
            simp only [List.singleton_append, joinWith, nlnl, List.length_append,
              List.length_cons, List.length_nil]
            omega
          · rw [if_neg hcc, if_neg hcc]
            simp only [List.nil_append, joinWith]
            omega
        · unfold overlapLen
          by_cases hcc : cur ≠ [] ∧ 1 < cur.length
          · rw [if_pos hcc]
            have := hcur _ (getLastD_mem [] hcc.1)
            omega
          · rw [if_neg hcc]
            omega
        · exact hclose
    · next hcond1 =>
      apply ih
      · exact hrest
      · intro x hx
        rcases List.mem_append.mp hx with hx | hx
        · exact hcur x hx
        · rw [List.mem_singleton.mp hx]; exact hpN
      · by_cases hne : cur = []
        · subst hne
          simp only [List.nil_append, joinWith]
          omega
        · rw [joinWith_append _ _ hne]
          simp only [List.length_append, nlnl_length]
          omega
      · omega
      · exact hch


/-- C3 (amended): the chunker is a total function and every chunk it
returns has length at most `chunk_size + 3 * |text| + 4` — termination and
finiteness hold (the loops fold over the finite paragraph and sentence
lists), but not via a hard cut at `chunk_size`: see the counterexample. -/
theorem split_into_chunks_chunk_length_bounded
    (text : PyText) (chunk_size overlap : Nat) :
    ∀ c ∈ split_into_chunks text chunk_size overlap,
      c.length ≤ chunk_size + 3 * text.length + 4 := by
  intro c hc
  unfold split_into_chunks at hc
  split at hc
  · exact absurd hc (by simp)
  · have hpar : ∀ p ∈ ((splitParas text).map pyStrip).filter
        (fun p => decide (p ≠ [])), p.length ≤ text.length := by
      intro p hp
      have hp2 := List.mem_of_mem_filter hp
      obtain ⟨q, hq, hpq⟩ := List.mem_map.mp hp2
      rw [← hpq]
      exact le_trans (pyStrip_length_le q) (mem_splitParas_length_le hq)
    have hinv := paraLoop_invariant chunk_size text.length
      (((splitParas text).map pyStrip).filter (fun p => decide (p ≠ []))) [] [] 0
      hpar
      (by intro x hx; exact absurd hx (by simp))
      (by simp [joinWith])
      (by omega)
      (by intro x hx; exact absurd hx (by simp))
    obtain ⟨h1, h2, h3, h4⟩ := hinv
    rcases hpl : paraLoop chunk_size
        (((splitParas text).map pyStrip).filter (fun p => decide (p ≠ [])))
        [] [] 0 with ⟨chunks, cur, len⟩
    rw [hpl] at hc h1 h3 h4
    simp only at hc h1 h3 h4
    exact closeParaChunk_bound h1 (by omega) c hc

/-- Witness for C3 (amended) on a concrete input. -/
theorem split_into_chunks_chunk_length_bounded_witness :
    List.replicate 5 'a' ∈ split_into_chunks (List.replicate 5 'a') 2 200
    ∧ (List.replicate 5 'a').length ≤ 2 + 3 * (List.replicate 5 'a').length + 4 :=
  ⟨by decide,
    split_into_chunks_chunk_length_bounded (List.replicate 5 'a') 2 200
      (List.replicate 5 'a') (by decide)⟩

/-- C3 counterexample: a paragraph of five characters with no sentence or
paragraph boundary, chunked with `chunk_size = 2`, is returned as one chunk
of length `5 > chunk_size` — there is no fall-back hard cut at
`chunk_size`. -/
theorem split_into_chunks_no_hard_cut_counterexample :
    split_into_chunks (List.replicate 5 'a') 2 200 = [List.replicate 5 'a']
    ∧ 2 < (List.replicate 5 'a').length := by decide


theorem formatResponse_isStr {r : LLMResp} (h : isStr r = true) :
    isStr (formatResponse r) = true := by
  cases r with
  | s x =>
    simp only [formatResponse]
    split <;> rfl
  | dict kvs => simp [isStr] at h
  | list xs => simp [isStr] at h
  | obj t => simp [isStr] at h

theorem cleanupResponse_isStr {r : LLMResp} (h : respShapeGood r = true) :
    isStr (cleanupResponse r) = true := by
  cases r with
  | s x => rfl
  | obj t => simp [respShapeGood] at h
  | dict kvs =>
    simp only [respShapeGood] at h
    simp only [cleanupResponse]
    cases h1 : dictFind kvs "text" with
    | some v => simp only [h1] at h ⊢; exact h
    | none =>
      simp only [h1] at h ⊢
      cases h2 : dictFind kvs "generated_text" with
      | some v => simp only [h2] at h ⊢; exact h
      | none =>
        simp only [h2] at h ⊢
        cases h3 : dictFind kvs "response" with
        | some v => simp only [h3] at h ⊢; exact h
        | none => simp only [h3] at h ⊢; rfl
  | list xs =>
    cases xs with
    | nil => simp [respShapeGood] at h
    | cons x rest =>
      cases x with
      | dict kvs =>
        simp only [respShapeGood] at h
        simp only [cleanupResponse]
        cases h1 : dictFind kvs "text" with
        | some v => simp only [h1] at h ⊢; exact h
        | none => simp only [h1] at h ⊢; rfl
      | s y => rfl
      | list ys => rfl
      | obj t => rfl

theorem generateResponse_isStr (llm : LLMModel) (hllm : llmGood llm)
    (question : String) (context : List RDoc) :
    isStr (generateResponse llm question context) = true := by
  cases llm with
  | nonePy => rfl
  | unsupported => rfl
  | callable f =>
    simp only [generateResponse]
    cases hf : f (buildPrompt question context) with
    | error e => rfl
    | ok r =>
      have hg := hllm (buildPrompt question context) r hf
      exact formatResponse_isStr (cleanupResponse_isStr hg)

/-- C2 (amended): `query` never propagates an exception — every failure
path yields a string — and its result is a string whenever the generation
provider is absent, fails, or returns a shape whose normalization is a
string. -/
theorem rag_query_returns_string (vsearch : Vec → Nat → Except String (List RDoc))
    (simSearch : Option (String → Except String (List RDoc)))
    (rerankFn : String → List RDoc → List RDoc)
    (emb : EmbModel) (llm : LLMModel) (question : String)
    (context : Option (List RDoc)) (k : Nat) (rerank : Bool)
    (hllm : llmGood llm) :
    isStr (ragQuery vsearch simSearch rerankFn emb llm question context k rerank) = true := by
  have hbody : ∀ v,
      ragQueryBody vsearch simSearch rerankFn emb llm question context k rerank = .ok v →
      isStr v = true := by
    intro v hv
    unfold ragQueryBody at hv
    split at hv
    · cases hv
      exact generateResponse_isStr llm hllm question _
    · split at hv
      · cases hv; rfl
      · next qe hqe =>
        cases hr : retrieveDocs vsearch simSearch question qe k with
        | error e => rw [hr] at hv; exact absurd hv (by simp)
        | ok docs =>
          rw [hr] at hv
          cases hv
          exact generateResponse_isStr llm hllm question _
  unfold ragQuery
  cases hb : ragQueryBody vsearch simSearch rerankFn emb llm question context k rerank with
  | ok v => exact hbody v hb
  | error e => rfl

/-- Witness for C2 (amended): a provider returning a plain string, with an
absent embedding model (no retrievable context). -/
theorem rag_query_returns_string_witness :
    llmGood (.callable (fun _ => .ok (.s "answer")))
    ∧ isStr (ragQuery (fun _ _ => .ok []) none (fun _ ds => ds) .nonePy
        (.callable (fun _ => .ok (.s "answer"))) "q" none 3 true) = true :=
  ⟨fun _ r h => by cases h; rfl,
    rag_query_returns_string (fun _ _ => .ok []) none (fun _ ds => ds) .nonePy
      (.callable (fun _ => .ok (.s "answer"))) "q" none 3 true
      (fun _ r h => by cases h; rfl)⟩

/-- C2 counterexample: a generation provider returning a non-string,
non-dict, non-list object makes `query` return that object unchanged — not
a string — because the shape normalization and `_format_response` both pass
such values through. -/
theorem rag_query_nonstring_counterexample :
    isStr (ragQuery (fun _ _ => .ok []) none (fun _ ds => ds) .nonePy
      (.callable (fun _ => .ok (.obj "LLMResult"))) "q" (some [docC2]) 3 true)
      = false := rfl


theorem dictFind_append_right {β : Type} {m : List (String × β)} {k : String}
    (h : dictFind m k = none) (l : List (String × β)) :
    dictFind (m ++ l) k = dictFind l k := by
  induction m with
  | nil => rfl
  | cons p rest ih =>
    simp only [dictFind] at h
    by_cases hp : p.1 = k
    · rw [if_pos hp] at h; exact absurd h (by simp)
    · rw [if_neg hp] at h
      simp only [List.cons_append, dictFind, if_neg hp]
      exact ih h

theorem dictFind_map_replace {β : Type} {m : List (String × β)} {k : String}
    (v : β) (h : (dictFind m k).isSome = true) :
    dictFind (m.map (fun p => if p.1 = k then (k, v) else p)) k = some v := by
  induction m with
  | nil => simp [dictFind] at h
  | cons p rest ih =>
    simp only [dictFind] at h
    by_cases hp : p.1 = k
    · simp only [List.map_cons, if_pos hp, dictFind]
      simp
    · rw [if_neg hp] at h
      simp only [List.map_cons, if_neg hp, dictFind, if_neg hp]
      exact ih h

theorem dictContains_insert_self {β : Type} (m : List (String × β))
    (k : String) (v : β) : dictContains (dictInsert m k v) k = true := by
  unfold dictInsert
  by_cases h : (dictFind m k).isSome = true
  · rw [if_pos h]
    unfold dictContains
    rw [dictFind_map_replace v h]
    rfl
  · rw [if_neg h]
    unfold dictContains
    have hn : dictFind m k = none := by
      cases hf : dictFind m k with
      | none => rfl
      | some w => rw [hf] at h; simp at h
    rw [dictFind_append_right hn]
    simp [dictFind]

/-- C5 (code_bug): a fresh upload whose extraction yields nonempty text
always ends in the 500 `serverError` branch — `generate_embeddings` returns
a chunks/embeddings dict, and `add_document` raises while converting that
dict to a float array — so no call ever returns a success carrying the
document id.  The crash happens after the document record was inserted, so
the hash is in the in-memory map, and a second upload of the same bytes is
answered `already processed` (same hash) without extracting, embedding or
inserting anything and without touching the store. -/
theorem upload_duplicate_detection_code_bug
    (vs : VS) (disk : Disk) (deps : UploadDeps) (filename : String)
    (content : Bytes)
    (hallowed : allowed_file filename.toList = true)
    (hfresh : vs.has_document (deps.md5 content) = false)
    (htext : deps.extract_text content ≠ "") :
    (upload_file vs disk deps filename content).2.1 = .serverError
    ∧ (upload_file vs disk deps filename content).2.2
        = { extracted := true, embedded := true, inserted := false }
    ∧ ((upload_file vs disk deps filename content).1.1).has_document
        (deps.md5 content) = true
    ∧ (upload_file ((upload_file vs disk deps filename content).1.1)
          ((upload_file vs disk deps filename content).1.2)
          deps filename content).2.1
        = .alreadyProcessed (deps.md5 content) filename
    ∧ (upload_file ((upload_file vs disk deps filename content).1.1)
          ((upload_file vs disk deps filename content).1.2)
          deps filename content).2.2
        = { extracted := false, embedded := false, inserted := false }
    ∧ (upload_file ((upload_file vs disk deps filename content).1.1)
          ((upload_file vs disk deps filename content).1.2)
          deps filename content).1
        = (upload_file vs disk deps filename content).1 := by
  have hallowedD : allowed_file filename.data = true := hallowed
  have hfreshD : dictContains vs.documents (deps.md5 content) = false := hfresh
  have h1 : (upload_file vs disk deps filename content).2.1 = .serverError := by
    unfold upload_file VS.add_document_dyn npAsFloat32
    simp [hallowedD, hfresh, htext]
  have h2 : (upload_file vs disk deps filename content).2.2
      = { extracted := true, embedded := true, inserted := false } := by
    unfold upload_file VS.add_document_dyn npAsFloat32
    simp [hallowedD, hfresh, htext]
  have h3 : ((upload_file vs disk deps filename content).1.1).has_document
      (deps.md5 content) = true := by
    unfold upload_file VS.add_document_dyn npAsFloat32
    simp [hallowedD, hfresh, hfreshD, htext, VS.has_document, dictContains_insert_self]
  have hdedup : ∀ (vs2 : VS) (disk2 : Disk),
      vs2.has_document (deps.md5 content) = true →
      upload_file vs2 disk2 deps filename content
        = ((vs2, disk2), .alreadyProcessed (deps.md5 content) filename,
            { extracted := false, embedded := false, inserted := false }) := by
    intro vs2 disk2 hhas
    unfold upload_file
    simp [hallowedD, hhas]
  have hd := hdedup ((upload_file vs disk deps filename content).1.1)
    ((upload_file vs disk deps filename content).1.2) h3
  refine ⟨h1, h2, h3, ?_, ?_, ?_⟩
  · rw [hd]
  · rw [hd]
  · rw [hd]

/-- Witness for C5 at concrete bytes and collaborators: the first call is a
500 without a document id, the second is answered from the dedup check. -/
theorem upload_duplicate_detection_code_bug_witness :
    allowed_file ("f.pdf" : String).toList = true
    ∧ (VS.emptyStore 1).has_document (depsW5.md5 contentW5) = false
    ∧ depsW5.extract_text contentW5 ≠ ""
    ∧ (upload_file (VS.emptyStore 1) none depsW5 "f.pdf" contentW5).2.1 = .serverError
    ∧ (upload_file ((upload_file (VS.emptyStore 1) none depsW5 "f.pdf" contentW5).1.1)
        ((upload_file (VS.emptyStore 1) none depsW5 "f.pdf" contentW5).1.2)
        depsW5 "f.pdf" contentW5).2.1
        = .alreadyProcessed (depsW5.md5 contentW5) "f.pdf" :=
  ⟨by decide, by decide, by decide,
    (upload_duplicate_detection_code_bug (VS.emptyStore 1) none depsW5 "f.pdf"
      contentW5 (by decide) (by decide) (by decide)).1,
    (upload_duplicate_detection_code_bug (VS.emptyStore 1) none depsW5 "f.pdf"
      contentW5 (by decide) (by decide) (by decide)).2.2.2.1⟩

end PdfAssistant
